import Mathlib

/-!
# Verification of the animal word-game program

Shallow embedding of `src/src/main.rs`: a catalog of sixteen three-letter
animal names, a word generator `animal_or_not` that either picks an
undiscovered real name (when a random draw modulo 4 is zero) or synthesizes
a three-letter word from position-wise letter pools, and a session loop that
drives the generator until the discovered set equals the catalog or the user
types `exit`.

Randomness in the source comes from reading the system clock
(`SystemTime::now().duration_since(UNIX_EPOCH)`), which either yields a
nanosecond count or fails.  Each clock reading is modelled as an
`Option Nat`; a generator call performs up to five readings, collected in an
`Entropy` record.  The Rust `HashSet<String>` of discovered names is
modelled as a `Finset String`.
-/

/-- Embedding of `random_usize` (src/src/main.rs lines 28-53): returns a
number in `[0, max)` from a clock reading, `0` when `max = 0`, and `0` when
the clock errors.  The cast `nanos as usize` truncates to 64 bits, hence
the `% 2 ^ 64`. -/
def random_usize (clock : Option Nat) (max : Nat) : Nat :=
  if max = 0 then 0
  else
    match clock with
    | none => 0
    | some nanos => (nanos % 2 ^ 64) % max

/-- The fixed catalog of sixteen three-letter animal names
(src/src/main.rs lines 61-64). -/
def THREE_LETTER_ANIMAL_NAMES : List String :=
  ["pup", "dog", "cat", "rat", "fox", "hen", "bug", "ant", "fly", "pig", "bat", "cow", "hog",
   "ape", "owl", "bee"]

/-- The catalog as a set (`animals_set` in the source). -/
def animals_set : Finset String := THREE_LETTER_ANIMAL_NAMES.toFinset

/-- `name.chars().nth(i).unwrap()` for the three-letter catalog entries. -/
def charAt (s : String) (i : Nat) : Char := s.data.getD i '?'

/-- The extra first letters added to the pool (`extra_first` in the source). -/
def extra_first : List Char := ['t', 'l', 'b', 'p', 's']

/-- The vowel set used to filter the second-letter pool. -/
def vowels : List Char := ['a', 'e', 'i', 'o', 'u']

/-- First-letter pool: first letters of the catalog together with the extra
letters, deduplicated (the source accumulates them in a `HashSet<char>` and
then collects to a `Vec`). -/
def first_letters : List Char :=
  ((THREE_LETTER_ANIMAL_NAMES.map (fun name => charAt name 0)) ++ extra_first).dedup

/-- Second-letter pool: second letters of the catalog intersected with the
vowels; if that intersection is empty the full vowel set is used instead. -/
def second_letters : List Char :=
  let base := ((THREE_LETTER_ANIMAL_NAMES.map (fun name => charAt name 1)).dedup).filter
    (fun c => c ∈ vowels)
  if base = [] then vowels else base

/-- Third-letter pool: the third letters of the catalog, deduplicated. -/
def third_letters : List Char :=
  (THREE_LETTER_ANIMAL_NAMES.map (fun name => charAt name 2)).dedup

/-- The clock readings a single generator call may perform: one for the
25%-branch draw, one for picking an undiscovered name, and three for the
three synthesized letters. -/
structure Entropy where
  branch : Option Nat
  pick : Option Nat
  c1 : Option Nat
  c2 : Option Nat
  c3 : Option Nat

/-- Outcome of one generator call: `allDone` is the `Ok(Some("All Done!"))`
return; `picked w` is the early return from the known-name branch after
printing `w`; `synthesized w` is the `Ok(None)` return from the synthesis
path after printing `w`. -/
inductive GenOutcome where
  | allDone
  | picked (w : String)
  | synthesized (w : String)
deriving DecidableEq

/-- The `Result` value `main` matches on: `Some "All Done!"` for `allDone`,
`None` otherwise. -/
def GenOutcome.retval : GenOutcome → Option String
  | .allDone => some "All Done!"
  | .picked _ => none
  | .synthesized _ => none

/-- The word printed by a generator call (`println!("{}\n", word)`), if any. -/
def GenOutcome.printedWord : GenOutcome → Option String
  | .allDone => none
  | .picked w => some w
  | .synthesized w => some w

/-- The `available_animals` vector: catalog names not yet discovered, in
catalog order (src/src/main.rs lines 98-102). -/
def available_animals (animal_done_set : Finset String) : List String :=
  THREE_LETTER_ANIMAL_NAMES.filter (fun animal => animal ∉ animal_done_set)

/-- The name selected in the known-name branch:
`available_animals[random_usize(available_animals.len())]`. -/
def picked_word (e : Entropy) (animal_done_set : Finset String) : String :=
  (available_animals animal_done_set).getD
    (random_usize e.pick (available_animals animal_done_set).length) ""

/-- The three-letter word assembled by the synthesis path, one random index
into each pool (src/src/main.rs lines 139-145). -/
def synthWord (e : Entropy) : String :=
  String.mk
    [first_letters.getD (random_usize e.c1 first_letters.length) '?',
     second_letters.getD (random_usize e.c2 second_letters.length) '?',
     third_letters.getD (random_usize e.c3 third_letters.length) '?']

/-- The synthesis path: build the word, insert it into the discovered set
when it is a catalog entry, and return `Ok(None)` after printing it. -/
def synthesize (e : Entropy) (animal_done_set : Finset String) :
    GenOutcome × Finset String :=
  (.synthesized (synthWord e),
   if THREE_LETTER_ANIMAL_NAMES.contains (synthWord e)
   then insert (synthWord e) animal_done_set else animal_done_set)

/-- Embedding of `animal_or_not` (src/src/main.rs lines 55-160).  Returns
the outcome together with the updated discovered set (the source mutates the
set through `&mut`).  The full-catalog check comes first; then with the 25%
draw the known-name branch runs, falling through to synthesis when no
undiscovered names remain. -/
def animal_or_not (e : Entropy) (animal_done_set : Finset String) :
    GenOutcome × Finset String :=
  if animals_set = animal_done_set then (.allDone, animal_done_set)
  else if random_usize e.branch 4 = 0 then
    if available_animals animal_done_set ≠ [] then
      (.picked (picked_word e animal_done_set),
       insert (picked_word e animal_done_set) animal_done_set)
    else synthesize e animal_done_set
  else synthesize e animal_done_set

/-- Applying a sequence of generator calls to a starting set: the reachable
states of the session loop. -/
def runGen : List Entropy → Finset String → Finset String
  | [], s => s
  | e :: es, s => runGen es (animal_or_not e s).2

/-- Rust's `str::trim`: the string with whitespace stripped from both ends
(embedded directly over the character list so that it evaluates in the
kernel; agrees with Rust on ASCII whitespace). -/
def rust_trim (s : String) : String :=
  String.mk (((s.data.dropWhile Char.isWhitespace).reverse.dropWhile Char.isWhitespace).reverse)

/-- One iteration of the `main` loop (src/src/main.rs lines 162-180): call
the generator, break on `Some "All Done!"`; otherwise read `input` and break
with `OK!` printed when `input.trim() == "exit"`.  The third component lists
the lines `main` itself prints during the iteration. -/
inductive StepResult where
  | breakAllDone
  | breakExit
  | continueLoop
deriving DecidableEq

def main_step (e : Entropy) (input : String) (s : Finset String) :
    StepResult × Finset String × List String :=
  let r := animal_or_not e s
  if r.1.retval = some "All Done!" then (.breakAllDone, r.2, [])
  else if rust_trim input = "exit" then (.breakExit, r.2, ["OK!"])
  else (.continueLoop, r.2, [])

/-! ## Spec-side letter pools (for claim C4) -/

/-- The set of first letters across the catalog. -/
def catalog_first_letters : Finset Char :=
  ((THREE_LETTER_ANIMAL_NAMES.map (fun name => charAt name 0)).toFinset : Finset Char)

/-- The set of second letters across the catalog. -/
def catalog_second_letters : Finset Char :=
  ((THREE_LETTER_ANIMAL_NAMES.map (fun name => charAt name 1)).toFinset : Finset Char)

/-- The set of third letters across the catalog. -/
def catalog_third_letters : Finset Char :=
  ((THREE_LETTER_ANIMAL_NAMES.map (fun name => charAt name 2)).toFinset : Finset Char)

/-- The vowel set as a finite set. -/
def vowel_set : Finset Char := vowels.toFinset

/-- Spec rule for the second-letter pool: catalog second letters
intersected with the vowels. -/
def second_pool_spec : Finset Char := catalog_second_letters ∩ vowel_set

/-! ## Helper lemmas -/

lemma getD_mem_of_lt {α : Type} (l : List α) (d : α) (i : Nat) (h : i < l.length) :
    l.getD i d ∈ l := by
  induction l generalizing i with
  | nil => simp at h
  | cons a t ih =>
    cases i with
    | zero => simp
    | succ n =>
      simp only [List.getD_cons_succ, List.mem_cons]
      exact Or.inr (ih n (by simpa using h))

lemma random_usize_lt (clock : Option Nat) (n : Nat) (h : 0 < n) :
    random_usize clock n < n := by
  unfold random_usize
  rw [if_neg (Nat.pos_iff_ne_zero.mp h)]
  cases clock with
  | none => exact h
  | some nanos => exact Nat.mod_lt _ h

lemma random_usize_one (clock : Option Nat) : random_usize clock 1 = 0 := by
  unfold random_usize
  cases clock <;> simp [Nat.mod_one]

lemma picked_word_mem (e : Entropy) (s : Finset String)
    (h : available_animals s ≠ []) : picked_word e s ∈ available_animals s := by
  unfold picked_word
  exact getD_mem_of_lt _ _ _
    (random_usize_lt _ _ (List.length_pos.mpr h))

lemma mem_available (s : Finset String) (w : String)
    (h : w ∈ available_animals s) :
    w ∈ THREE_LETTER_ANIMAL_NAMES ∧ w ∉ s := by
  unfold available_animals at h
  rw [List.mem_filter] at h
  exact ⟨h.1, by simpa using h.2⟩

lemma mem_animals_set {w : String} (h : w ∈ THREE_LETTER_ANIMAL_NAMES) :
    w ∈ animals_set := by
  unfold animals_set
  exact List.mem_toFinset.mpr h

lemma animal_or_not_fst_of_ne (e : Entropy) (s : Finset String)
    (h : animals_set ≠ s) :
    (animal_or_not e s).1 = .picked (picked_word e s) ∨
    (animal_or_not e s).1 = .synthesized (synthWord e) := by
  unfold animal_or_not
  rw [if_neg h]
  split
  · split
    · exact Or.inl rfl
    · exact Or.inr rfl
  · exact Or.inr rfl

lemma retval_none_of_ne (e : Entropy) (s : Finset String)
    (h : animals_set ≠ s) : ((animal_or_not e s).1).retval = none := by
  rcases animal_or_not_fst_of_ne e s h with h' | h' <;> rw [h'] <;> rfl

lemma synthWord_mem_of_contains (e : Entropy)
    (h : THREE_LETTER_ANIMAL_NAMES.contains (synthWord e) = true) :
    synthWord e ∈ THREE_LETTER_ANIMAL_NAMES := by
  simpa using h

lemma synthesize_snd_superset (e : Entropy) (s : Finset String) :
    s ⊆ (synthesize e s).2 := by
  unfold synthesize
  dsimp only
  split
  · exact Finset.subset_insert _ s
  · exact Finset.Subset.refl s

lemma synthesize_snd_subset (e : Entropy) (s : Finset String)
    (h : s ⊆ animals_set) : (synthesize e s).2 ⊆ animals_set := by
  unfold synthesize
  dsimp only
  split
  · rename_i hc
    exact Finset.insert_subset (mem_animals_set (synthWord_mem_of_contains e hc)) h
  · exact h

lemma synthesize_snd_of_mem (e : Entropy) (s : Finset String)
    (h : synthWord e ∈ THREE_LETTER_ANIMAL_NAMES) :
    (synthesize e s).2 = insert (synthWord e) s := by
  unfold synthesize
  dsimp only
  rw [if_pos (by simpa using h)]

lemma animal_or_not_snd_subset (e : Entropy) (s : Finset String)
    (h : s ⊆ animals_set) : (animal_or_not e s).2 ⊆ animals_set := by
  unfold animal_or_not
  split
  · exact h
  · split
    · split
      · rename_i hav
        have hm := mem_available s _ (picked_word_mem e s hav)
        exact Finset.insert_subset (mem_animals_set hm.1) h
      · exact synthesize_snd_subset e s h
    · exact synthesize_snd_subset e s h

lemma runGen_subset (es : List Entropy) (s : Finset String)
    (h : s ⊆ animals_set) : runGen es s ⊆ animals_set := by
  induction es generalizing s with
  | nil => exact h
  | cons e es ih => exact ih _ (animal_or_not_snd_subset e s h)

/-! ## Claim theorems -/

/-- C1: the generator returns `AllDone` if and only if the discovered set
equals the full 16-name catalog as a set; when they are equal no word is
printed, and when they differ the call returns `Continue`
(`Ok(None)`). -/
theorem allDone_iff_discovered_eq_catalog (e : Entropy) (s : Finset String) :
    ((animal_or_not e s).1 = GenOutcome.allDone ↔ s = animals_set) ∧
    (s = animals_set → ((animal_or_not e s).1).printedWord = none) ∧
    (s ≠ animals_set → ((animal_or_not e s).1).retval = none) := by
  refine ⟨⟨?_, ?_⟩, ?_, ?_⟩
  · intro hall
    by_contra hne
    rcases animal_or_not_fst_of_ne e s (fun hh => hne hh.symm) with h | h <;>
      rw [h] at hall <;> exact GenOutcome.noConfusion hall
  · intro hs
    subst hs
    unfold animal_or_not
    rw [if_pos rfl]
  · intro hs
    subst hs
    unfold animal_or_not
    rw [if_pos rfl]
    rfl
  · intro hne
    exact retval_none_of_ne e s (fun hh => hne hh.symm)

/-- C1 witness: with the full catalog the call prints nothing; with the
empty set the call returns `Continue`. -/
theorem allDone_iff_discovered_eq_catalog_witness :
    ((animal_or_not ⟨some 0, none, none, none, none⟩ animals_set).1).printedWord = none ∧
    ((animal_or_not ⟨some 0, none, none, none, none⟩ (∅ : Finset String)).1).retval = none :=
  ⟨(allDone_iff_discovered_eq_catalog ⟨some 0, none, none, none, none⟩ animals_set).2.1 rfl,
   (allDone_iff_discovered_eq_catalog ⟨some 0, none, none, none, none⟩ ∅).2.2 (by decide)⟩

/-- C2: every generator call preserves `discovered ⊆ catalog`, and every
state reachable from the empty set by a sequence of generator calls is a
subset of the catalog. -/
theorem discovered_subset_catalog :
    (∀ (e : Entropy) (s : Finset String), s ⊆ animals_set →
      (animal_or_not e s).2 ⊆ animals_set) ∧
    (∀ es : List Entropy, runGen es (∅ : Finset String) ⊆ animals_set) :=
  ⟨animal_or_not_snd_subset, fun es => runGen_subset es ∅ (Finset.empty_subset _)⟩

/-- C2 witness: one concrete call starting from the empty set stays inside
the catalog. -/
theorem discovered_subset_catalog_witness :
    (animal_or_not ⟨some 0, some 0, some 0, some 0, some 0⟩ (∅ : Finset String)).2 ⊆ animals_set :=
  discovered_subset_catalog.1 ⟨some 0, some 0, some 0, some 0, some 0⟩ ∅ (Finset.empty_subset _)

/-- C5: when the discovered set equals the full catalog the call returns
`AllDone`, leaves the set unchanged, and prints no word. -/
theorem allDone_frame (e : Entropy) :
    animal_or_not e animals_set = (GenOutcome.allDone, animals_set) ∧
    ((animal_or_not e animals_set).1).printedWord = none := by
  constructor
  · unfold animal_or_not
    rw [if_pos rfl]
  · unfold animal_or_not
    rw [if_pos rfl]
    rfl

lemma synthesized_word_eq (e : Entropy) (s : Finset String) (w : String)
    (h : (animal_or_not e s).1 = GenOutcome.synthesized w) : w = synthWord e := by
  unfold animal_or_not at h
  split at h
  · exact GenOutcome.noConfusion h
  · split at h
    · split at h
      · exact GenOutcome.noConfusion h
      · have h2 : GenOutcome.synthesized (synthWord e) = GenOutcome.synthesized w := h
        injection h2 with h3
        exact h3.symm
    · have h2 : GenOutcome.synthesized (synthWord e) = GenOutcome.synthesized w := h
      injection h2 with h3
      exact h3.symm

/-- C3 counterexample: with the discovered set `{"cat"}` and entropy driving
the synthesis path to assemble `"cat"`, the synthesized word matches a
catalog entry but the discovered set does not grow at all — `HashSet.insert`
is idempotent, so the set stays `{"cat"}` with cardinality 1. -/
theorem discovered_growth_counterexample :
    (animal_or_not ⟨some 1, none, some 3, some 2, some 4⟩ ({"cat"} : Finset String)).1 =
      GenOutcome.synthesized "cat" ∧
    "cat" ∈ THREE_LETTER_ANIMAL_NAMES ∧
    (animal_or_not ⟨some 1, none, some 3, some 2, some 4⟩ ({"cat"} : Finset String)).2 =
      ({"cat"} : Finset String) ∧
    ¬ ((animal_or_not ⟨some 1, none, some 3, some 2, some 4⟩
        ({"cat"} : Finset String)).2).card =
      ({"cat"} : Finset String).card + 1 := by
  decide

/-- C3 (amended): on a known-name-branch call the discovered set grows by
exactly one element; when the synthesized word matches a catalog entry the
post-state is `insert word pre` (which grows by one only when the word was
not already discovered); on every call the post-state is a superset of the
pre-state. -/
theorem discovered_growth (e : Entropy) (s : Finset String) :
    (∀ w, (animal_or_not e s).1 = GenOutcome.picked w →
      w ∉ s ∧ (animal_or_not e s).2 = insert w s ∧
      ((animal_or_not e s).2).card = s.card + 1) ∧
    (∀ w, (animal_or_not e s).1 = GenOutcome.synthesized w →
      w ∈ THREE_LETTER_ANIMAL_NAMES → (animal_or_not e s).2 = insert w s) ∧
    s ⊆ (animal_or_not e s).2 := by
  unfold animal_or_not
  split
  · exact ⟨fun w hw => GenOutcome.noConfusion hw,
      fun w hw => GenOutcome.noConfusion hw, Finset.Subset.refl s⟩
  · split
    · split
      · rename_i hav
        refine ⟨?_, fun w hw => GenOutcome.noConfusion hw, Finset.subset_insert _ s⟩
        intro w hw
        have h2 : GenOutcome.picked (picked_word e s) = GenOutcome.picked w := hw
        injection h2 with h3
        subst h3
        have hnot := (mem_available s _ (picked_word_mem e s hav)).2
        exact ⟨hnot, rfl, Finset.card_insert_of_not_mem hnot⟩
      · refine ⟨fun w hw => GenOutcome.noConfusion hw, ?_, synthesize_snd_superset e s⟩
        intro w hw hmem
        have h2 : GenOutcome.synthesized (synthWord e) = GenOutcome.synthesized w := hw
        injection h2 with h3
        subst h3
        exact synthesize_snd_of_mem e s hmem
    · refine ⟨fun w hw => GenOutcome.noConfusion hw, ?_, synthesize_snd_superset e s⟩
      intro w hw hmem
      have h2 : GenOutcome.synthesized (synthWord e) = GenOutcome.synthesized w := hw
      injection h2 with h3
      subst h3
      exact synthesize_snd_of_mem e s hmem

/-- C3 witness: a concrete known-name-branch call from the empty set inserts
one new name (the selected word is `"pup"`). -/
theorem discovered_growth_witness :
    ("pup" : String) ∉ (∅ : Finset String) ∧
    ((animal_or_not ⟨some 0, some 0, none, none, none⟩ (∅ : Finset String)).2).card =
      (∅ : Finset String).card + 1 :=
  ⟨((discovered_growth ⟨some 0, some 0, none, none, none⟩ ∅).1 "pup" (by decide)).1,
   ((discovered_growth ⟨some 0, some 0, none, none, none⟩ ∅).1 "pup" (by decide)).2.2⟩

lemma first_letters_sets :
    first_letters.toFinset = catalog_first_letters ∪ extra_first.toFinset := by
  decide

lemma second_letters_sets :
    second_letters.toFinset =
      (if second_pool_spec = (∅ : Finset Char) then vowel_set else second_pool_spec) := by
  decide

lemma third_letters_sets : third_letters.toFinset = catalog_third_letters := by
  decide

/-- C4: every word produced by the synthesis path has length 3; its first
character lies in the union of the catalog first letters with
`{t,l,b,p,s}`; its second character lies in the intersection of the catalog
second letters with the vowels (or in the full vowel set if that
intersection were empty); its third character lies in the catalog third
letters. -/
theorem synthesized_word_shape (e : Entropy) (s : Finset String) (w : String)
    (h : (animal_or_not e s).1 = GenOutcome.synthesized w) :
    w.length = 3 ∧
    charAt w 0 ∈ catalog_first_letters ∪ extra_first.toFinset ∧
    charAt w 1 ∈ (if second_pool_spec = (∅ : Finset Char) then vowel_set else second_pool_spec) ∧
    charAt w 2 ∈ catalog_third_letters := by
  have hw := synthesized_word_eq e s w h
  subst hw
  refine ⟨rfl, ?_, ?_, ?_⟩
  · rw [← first_letters_sets]
    exact List.mem_toFinset.mpr (getD_mem_of_lt first_letters '?'
      (random_usize e.c1 first_letters.length) (random_usize_lt e.c1 _ (by decide)))
  · rw [← second_letters_sets]
    exact List.mem_toFinset.mpr (getD_mem_of_lt second_letters '?'
      (random_usize e.c2 second_letters.length) (random_usize_lt e.c2 _ (by decide)))
  · rw [← third_letters_sets]
    exact List.mem_toFinset.mpr (getD_mem_of_lt third_letters '?'
      (random_usize e.c3 third_letters.length) (random_usize_lt e.c3 _ (by decide)))

/-- C4 witness: a concrete synthesis call (branch draw nonzero, all letter
clocks failed) produces the word `"dup"` and it satisfies the shape. -/
theorem synthesized_word_shape_witness :
    ("dup" : String).length = 3 ∧
    charAt "dup" 0 ∈ catalog_first_letters ∪ extra_first.toFinset ∧
    charAt "dup" 1 ∈ (if second_pool_spec = (∅ : Finset Char) then vowel_set else second_pool_spec) ∧
    charAt "dup" 2 ∈ catalog_third_letters :=
  synthesized_word_shape ⟨some 1, none, none, none, none⟩ ∅ "dup" (by decide)

/-- C6: when the discovered set is the catalog minus `"owl"` and the call
takes the known-name branch, the undiscovered list is exactly `["owl"]` and
the call selects `"owl"` and inserts it — for every value of the remaining
entropy, since the index into a one-element list is always 0. -/
theorem last_owl_selected (e : Entropy) (h : random_usize e.branch 4 = 0) :
    available_animals (animals_set.erase "owl") = ["owl"] ∧
    animal_or_not e (animals_set.erase "owl") =
      (GenOutcome.picked "owl", insert "owl" (animals_set.erase "owl")) := by
  have hav : available_animals (animals_set.erase "owl") = ["owl"] := by decide
  have hne : animals_set ≠ animals_set.erase "owl" := by decide
  have hpw : picked_word e (animals_set.erase "owl") = "owl" := by
    unfold picked_word
    rw [hav]
    have h1 : random_usize e.pick (["owl"] : List String).length = 0 :=
      random_usize_one e.pick
    rw [h1]
    rfl
  refine ⟨hav, ?_⟩
  unfold animal_or_not
  rw [if_neg hne, if_pos h,
    if_pos (show available_animals (animals_set.erase "owl") ≠ [] by
      rw [hav]; exact List.cons_ne_nil _ _), hpw]

/-- C6 witness: with a concrete zero branch draw the call from
catalog-minus-owl picks `"owl"`. -/
theorem last_owl_selected_witness :
    animal_or_not ⟨some 0, none, none, none, none⟩ (animals_set.erase "owl") =
      (GenOutcome.picked "owl", insert "owl" (animals_set.erase "owl")) :=
  (last_owl_selected ⟨some 0, none, none, none, none⟩ (by decide)).2

/-- C7: on a non-`AllDone` iteration, an input whose trimmed value is
`"exit"` makes the loop break and print `OK!`, and an input whose trimmed
value differs keeps the loop running; concretely `"  exit\n"` trims to
`"exit"` while `"Exit"` and `"exit now"` do not. -/
theorem exit_terminates (e : Entropy) (input : String) (s : Finset String)
    (h : s ≠ animals_set) :
    (rust_trim input = "exit" →
      (main_step e input s).1 = StepResult.breakExit ∧
      (main_step e input s).2.2 = ["OK!"]) ∧
    (rust_trim input ≠ "exit" →
      (main_step e input s).1 = StepResult.continueLoop ∧
      (main_step e input s).2.2 = []) ∧
    (rust_trim "  exit\n" = "exit" ∧ rust_trim "Exit" ≠ "exit" ∧
      rust_trim "exit now" ≠ "exit") := by
  have hr : ((animal_or_not e s).1).retval = none :=
    retval_none_of_ne e s (fun hh => h hh.symm)
  have hnone : ¬ (((animal_or_not e s).1).retval = some "All Done!") := by
    rw [hr]
    exact fun hh => Option.noConfusion hh
  refine ⟨?_, ?_, by decide, by decide, by decide⟩
  · intro ht
    simp only [main_step]
    rw [if_neg hnone, if_pos ht]
    exact ⟨rfl, rfl⟩
  · intro ht
    simp only [main_step]
    rw [if_neg hnone, if_neg ht]
    exact ⟨rfl, rfl⟩

/-- C7 witness: a concrete iteration from the empty set with input
`"  exit\n"` breaks the loop and prints `OK!`. -/
theorem exit_terminates_witness :
    (main_step ⟨some 1, none, none, none, none⟩ "  exit\n" (∅ : Finset String)).1 =
      StepResult.breakExit ∧
    (main_step ⟨some 1, none, none, none, none⟩ "  exit\n" (∅ : Finset String)).2.2 =
      ["OK!"] :=
  (exit_terminates ⟨some 1, none, none, none, none⟩ "  exit\n" ∅ (by decide)).1 (by decide)

/-- C8: the random-number function is a total function and never aborts: a
clock failure yields the fallback value 0, for every positive bound the
result is strictly below the bound, and a zero bound yields 0. -/
theorem random_usize_total (clock : Option Nat) (max : Nat) :
    random_usize none max = 0 ∧
    (0 < max → random_usize clock max < max) ∧
    random_usize clock 0 = 0 := by
  refine ⟨?_, fun h => random_usize_lt clock max h, ?_⟩
  · unfold random_usize
    split
    · rfl
    · rfl
  · unfold random_usize
    rw [if_pos rfl]

/-- C8 witness: with a concrete clock reading and bound 4 the result is
below 4. -/
theorem random_usize_total_witness : random_usize (some 7) 4 < 4 :=
  (random_usize_total (some 7) 4).2.1 (by decide)

/-- C9: from any reachable (subset-of-catalog) state that is not the full
catalog, a call whose branch draw is 0 finds a non-empty undiscovered list,
so the fall-through to synthesis is unreachable there: the call selects a
real catalog name not yet discovered and inserts it. -/
theorem known_branch_never_empty (e : Entropy) (s : Finset String)
    (hsub : s ⊆ animals_set) (hne : s ≠ animals_set)
    (hbr : random_usize e.branch 4 = 0) :
    available_animals s ≠ [] ∧
    animal_or_not e s =
      (GenOutcome.picked (picked_word e s), insert (picked_word e s) s) ∧
    picked_word e s ∈ THREE_LETTER_ANIMAL_NAMES ∧ picked_word e s ∉ s := by
  have hex : ∃ a ∈ animals_set, a ∉ s := by
    by_contra hno
    push_neg at hno
    exact hne (Finset.Subset.antisymm hsub (fun x hx => hno x hx))
  obtain ⟨a, ha, hna⟩ := hex
  have hmem : a ∈ available_animals s := by
    unfold available_animals
    rw [List.mem_filter]
    refine ⟨?_, by simpa using hna⟩
    unfold animals_set at ha
    exact List.mem_toFinset.mp ha
  have hav : available_animals s ≠ [] := by
    intro hnil
    rw [hnil] at hmem
    exact List.not_mem_nil a hmem
  have hcall : animal_or_not e s =
      (GenOutcome.picked (picked_word e s), insert (picked_word e s) s) := by
    unfold animal_or_not
    rw [if_neg (fun hh => hne hh.symm), if_pos hbr, if_pos hav]
  have hm := mem_available s _ (picked_word_mem e s hav)
  exact ⟨hav, hcall, hm.1, hm.2⟩

/-- C9 witness: from the empty set with a zero branch draw the undiscovered
list is non-empty and the selected word is a real catalog name. -/
theorem known_branch_never_empty_witness :
    available_animals (∅ : Finset String) ≠ [] ∧
    picked_word ⟨some 0, some 0, none, none, none⟩ (∅ : Finset String) ∈
      THREE_LETTER_ANIMAL_NAMES :=
  ⟨(known_branch_never_empty ⟨some 0, some 0, none, none, none⟩ ∅
      (Finset.empty_subset _) (by decide) (by decide)).1,
   (known_branch_never_empty ⟨some 0, some 0, none, none, none⟩ ∅
      (Finset.empty_subset _) (by decide) (by decide)).2.2.1⟩

/-- C10: every index the generator uses is in bounds: the three letter
pools are non-empty, each synthesis index is below the corresponding pool
length, and the guarded undiscovered-name index is below the list length
whenever the list is non-empty. -/
theorem generator_indices_in_bounds (e : Entropy) (s : Finset String) :
    (0 < first_letters.length ∧ 0 < second_letters.length ∧
      0 < third_letters.length) ∧
    random_usize e.c1 first_letters.length < first_letters.length ∧
    random_usize e.c2 second_letters.length < second_letters.length ∧
    random_usize e.c3 third_letters.length < third_letters.length ∧
    (available_animals s ≠ [] →
      random_usize e.pick (available_animals s).length <
        (available_animals s).length) :=
  ⟨⟨by decide, by decide, by decide⟩,
   random_usize_lt e.c1 _ (by decide), random_usize_lt e.c2 _ (by decide),
   random_usize_lt e.c3 _ (by decide),
   fun h => random_usize_lt e.pick _ (List.length_pos.mpr h)⟩

/-- C10 witness: with the empty discovered set the undiscovered list is
non-empty and the concrete pick index is in bounds. -/
theorem generator_indices_in_bounds_witness :
    random_usize (some 9) (available_animals (∅ : Finset String)).length <
      (available_animals (∅ : Finset String)).length :=
  (generator_indices_in_bounds ⟨none, some 9, none, none, none⟩ ∅).2.2.2.2 (by decide)
